import Mathlib

/-!
Shallow embedding of the host-bridge core of the blaze native engine:

* `src/native-engine/datafusion-ext/src/hdfs_object_store.rs`
  (`HDFSSingleFileObjectStore`, `HDFSObjectReader`, `HDFSFileReader`,
  `FSInputStreamWrapper`), together with the standard-library
  `std::io::BufReader` that `HDFSObjectReader::get_reader` wraps around
  `HDFSFileReader`;
* `src/native-engine/blaze/src/metrics.rs`
  (`REPORTED_METRICS`, `update_spark_metric_node`, `update_metrics`).

Modelling conventions:

* Every crossing of the native→JVM boundary is recorded as an `Event` (object
  store) or `MEvent` (metric mirror) in an explicit trace, so that theorems can
  count and locate host calls.
* JNI calls that can fail are parametrised by oracles returning
  `Except String _`; the JVM-side behaviour itself is outside the repository.
* Rust `u64` / `usize` values are `Nat` with explicit `% 2^64` where the Rust
  code can wrap; `jint` results are `Int`.
* A Rust function that can panic is given the result type `RustOutcome`, which
  distinguishes `ok`, the `Err` channel, and a panic.
-/

/-- Outcome of a Rust computation: normal result, recoverable error
(`Result::Err`), or a panic (`unreachable!` / `unimplemented!`). -/
inductive RustOutcome (α : Type) where
  | ok (a : α)
  | err (e : String)
  | panicked (msg : String)
  deriving DecidableEq

def RustOutcome.isErr {α : Type} : RustOutcome α → Bool
  | .err _ => true
  | _ => false

def RustOutcome.isPanic {α : Type} : RustOutcome α → Bool
  | .panicked _ => true
  | _ => false

/-- One host (JVM) call issued by the object-store side of the bridge.
Stream handles (`GlobalRef`s to `FSDataInputStream`) are identified by a
`Nat` id. -/
inductive Event where
  | getHDFSFileSystem
  | newString (s : String)
  | newHadoopPath
  | openCall (path : String)
  | newGlobalRef
  | readCall (streamId : Nat) (bufLen : Nat) (pos : Nat)
  | closeCall (streamId : Nat)
  deriving DecidableEq

/-- `datafusion_data_access::SizedFile`: `(path, size)` with `size : u64`. -/
structure SizedFile where
  path : String
  size : Nat
  deriving DecidableEq

/-- `HDFSObjectReader`: the `SizedFile` plus the shared
`Arc<FSInputStreamWrapper>`, identified by its stream id. -/
structure HDFSObjectReader where
  file : SizedFile
  streamId : Nat
  deriving DecidableEq

/-- `HDFSFileReader`: shares the stream wrapper and carries a `pos : u64`
cursor. -/
structure HDFSFileReader where
  streamId : Nat
  pos : Nat
  deriving DecidableEq

/-- Rust `as usize` (64-bit) applied to a signed value: two's-complement
reinterpretation, i.e. reduction mod `2^64` into `[0, 2^64)`. -/
def intAsUsize (i : Int) : Nat := (i % (2 ^ 64 : Int)).toNat

/-- `HDFSSingleFileObjectStore::list_file`: the body is `unreachable!()`,
which panics; no host call is made. -/
def list_file (pfx : String) : RustOutcome Unit × List Event :=
  let _ := pfx
  (.panicked "internal error: entered unreachable code", [])

/-- `HDFSSingleFileObjectStore::list_dir`: the body is `unreachable!()`,
which panics; no host call is made. -/
def list_dir (pfx : String) (delimiter : Option String) :
    RustOutcome Unit × List Event :=
  let _ := pfx
  let _ := delimiter
  (.panicked "internal error: entered unreachable code", [])

/-- Oracle for the JVM filesystem: `FileSystem.open(Path)` returning (on
success) the id of the newly opened `FSDataInputStream`. -/
structure HostFS where
  openStream : String → Except String Nat

/-- The `get_hdfs_input_stream` closure inside
`HDFSSingleFileObjectStore::file_reader`: `getHDFSFileSystem()`, build a JVM
string and a `HadoopPath` from the descriptor's path, `open` the path, and
promote the transient stream reference to a `GlobalRef`. -/
def get_hdfs_input_stream (host : HostFS) (path : String) :
    Except String Nat × List Event :=
  let evs : List Event :=
    [.getHDFSFileSystem, .newString path, .newHadoopPath, .openCall path]
  match host.openStream path with
  | .ok sid => (.ok sid, evs ++ [.newGlobalRef])
  | .error e => (.error e, evs)

/-- `HDFSSingleFileObjectStore::file_reader`: runs `get_hdfs_input_stream`
eagerly and wraps the resulting stream (on success) into an
`HDFSObjectReader`; any failure is surfaced as an I/O error via
`to_io_result`. -/
def file_reader (host : HostFS) (file : SizedFile) :
    Except String HDFSObjectReader × List Event :=
  match get_hdfs_input_stream host file.path with
  | (.ok sid, evs) => (.ok { file := file, streamId := sid }, evs)
  | (.error e, evs) => (.error ("io error: " ++ e), evs)

/-- `HDFSObjectReader::length`: returns `self.file.size`; no host call. -/
def hdfsObjectReader_length (r : HDFSObjectReader) : Nat × List Event :=
  (r.file.size, [])

/-- Oracle for the static bridge call
`JniBridge.readFSDataInputStream(stream, buf, pos) -> jint`; the argument
order is (buffer length, position). A `.error` models a raised JVM
exception. -/
def HostRead : Type := Nat → Nat → Except String Int

/-- `HDFSFileReader::read`: wrap the caller's buffer as a direct byte buffer,
call `readFSDataInputStream`, cast the returned `jint` `as usize`
(no negativity check), advance `pos` by the cast value (`u64` wrapping), and
return the cast value. The host call event is recorded whether or not the
call raised. -/
def hdfsFileReader_read (host : HostRead) (r : HDFSFileReader) (bufLen : Nat) :
    Except String (HDFSFileReader × Nat) × List Event :=
  match host bufLen r.pos with
  | .ok ret =>
      let read_size := intAsUsize ret
      (.ok ({ streamId := r.streamId, pos := (r.pos + read_size) % 2 ^ 64 },
            read_size),
       [.readCall r.streamId bufLen r.pos])
  | .error e => (.error e, [.readCall r.streamId bufLen r.pos])

/-- A sequence of direct `HDFSFileReader::read` calls with the given buffer
lengths; stops at the first failure. Returns the final reader, the list of
returned counts, and the accumulated host-call trace. -/
def hdfsReadSeq (host : HostRead) :
    HDFSFileReader → List Nat →
    Except String (HDFSFileReader × List Nat) × List Event
  | r, [] => (.ok (r, []), [])
  | r, b :: bs =>
      match hdfsFileReader_read host r b with
      | (.ok (r', n), tr) =>
          match hdfsReadSeq host r' bs with
          | (.ok (r'', ns), tr') => (.ok (r'', n :: ns), tr ++ tr')
          | (.error e, tr') => (.error e, tr ++ tr')
      | (.error e, tr) => (.error e, tr)

/-- Capacity of the `std::io::BufReader` created by
`HDFSObjectReader::get_reader` (`DEFAULT_BUF_SIZE`). -/
def bufCapacity : Nat := 8192

/-- State of `BufReader<HDFSFileReader>`: the inner reader plus the consumed
(`pos`) and filled (`cap`) extents of the internal 8192-byte buffer. Byte
contents are irrelevant to the claims and are not modelled. -/
structure BufReaderState where
  inner : HDFSFileReader
  bpos : Nat
  bcap : Nat
  deriving DecidableEq

/-- `BufReader::read`: if the internal buffer is empty and the caller's
buffer is at least as large as the internal one, bypass the buffer and read
directly into the caller's buffer; otherwise `fill_buf` (refilling from the
inner reader only when the buffer is exhausted) and copy out as many
buffered bytes as fit. -/
def bufReader_read (host : HostRead) (s : BufReaderState) (bufLen : Nat) :
    Except String (BufReaderState × Nat) × List Event :=
  if s.bpos = s.bcap ∧ bufCapacity ≤ bufLen then
    match hdfsFileReader_read host s.inner bufLen with
    | (.ok (inner', n), tr) =>
        (.ok ({ inner := inner', bpos := 0, bcap := 0 }, n), tr)
    | (.error e, tr) => (.error e, tr)
  else if s.bcap ≤ s.bpos then
    -- fill_buf refills the internal buffer from the inner reader
    match hdfsFileReader_read host s.inner bufCapacity with
    | (.ok (inner', n), tr) =>
        let copied := min bufLen n
        (.ok ({ inner := inner', bpos := copied, bcap := n }, copied), tr)
    | (.error e, tr) => (.error e, tr)
  else
    let copied := min bufLen (s.bcap - s.bpos)
    (.ok ({ s with bpos := s.bpos + copied }, copied), [])

/-- A sequence of caller reads through the `BufReader`; stops at the first
failure. -/
def bufReadSeq (host : HostRead) :
    BufReaderState → List Nat →
    Except String (BufReaderState × List Nat) × List Event
  | s, [] => (.ok (s, []), [])
  | s, b :: bs =>
      match bufReader_read host s b with
      | (.ok (s', n), tr) =>
          match bufReadSeq host s' bs with
          | (.ok (s'', ns), tr') => (.ok (s'', n :: ns), tr ++ tr')
          | (.error e, tr') => (.error e, tr ++ tr')
      | (.error e, tr) => (.error e, tr)

/-- `HDFSObjectReader::get_reader(start)`: wraps a fresh
`HDFSFileReader { stream, pos: start }` in a `BufReader`; infallible and
host-call free. -/
def get_reader (r : HDFSObjectReader) (start : Nat) :
    Except String BufReaderState × List Event :=
  (.ok { inner := { streamId := r.streamId, pos := start }, bpos := 0,
         bcap := 0 }, [])

/-- `HDFSObjectReader::sync_chunk_reader(start, length)`: delegates to
`get_reader start`, ignoring `length`. -/
def sync_chunk_reader (r : HDFSObjectReader) (start : Nat) (length : Nat) :
    Except String BufReaderState × List Event :=
  let _ := length
  get_reader r start

/-- `HDFSObjectReader::sync_reader()` is `sync_chunk_reader 0 0`. -/
def sync_reader (r : HDFSObjectReader) :
    Except String BufReaderState × List Event :=
  sync_chunk_reader r 0 0

/-- `FSInputStreamWrapper::drop`: issues one `close()` host call and
discards its result (`let _ = jni_call!(...)`), returning normally for every
host outcome. -/
def fsInputStreamWrapper_drop (closeResult : Except String Unit)
    (streamId : Nat) : Unit × List Event :=
  let _ := closeResult
  ((), [.closeCall streamId])

/-- Count the `closeCall` events in a trace. -/
def countCloseCalls (tr : List Event) : Nat :=
  tr.countP fun e => match e with
    | .closeCall _ => true
    | _ => false

/-- Host-call trace of one derived reader session: `sync_chunk_reader start`
followed by the given sequence of caller reads. -/
def readerSessionTrace (host : HostRead) (sid : Nat)
    (session : Nat × List Nat) : List Event :=
  (bufReadSeq host
    { inner := { streamId := sid, pos := session.1 }, bpos := 0, bcap := 0 }
    session.2).2

/-- Full lifetime of one `file_reader` result: open, any number of derived
reader sessions (each with its own start offset and read sequence, all
sharing the one stream wrapper), then destruction of the wrapper. When the
open fails no wrapper is created and no close is issued. -/
def openReadCloseTrace (hostFS : HostFS) (hostRead : HostRead)
    (closeResult : Except String Unit) (file : SizedFile)
    (sessions : List (Nat × List Nat)) : List Event :=
  match file_reader hostFS file with
  | (.ok r, evs) =>
      evs ++ (sessions.map (readerSessionTrace hostRead r.streamId)).flatten
          ++ (fsInputStreamWrapper_drop closeResult r.streamId).2
  | (.error _, evs) => evs

/-! ## Metric mirror (`src/native-engine/blaze/src/metrics.rs`) -/

/-- One host call issued by the metric mirror; `nodeId` identifies the
`SparkMetricNode` receiver. JVM string construction for the metric name is
folded into the `add` event. -/
inductive MEvent where
  | add (nodeId : Nat) (name : String) (value : Int)
  | getChild (nodeId : Nat) (i : Nat)
  deriving DecidableEq

/-- A native execution-plan node: its metric snapshot (`(name, as_usize)`
pairs, in iteration order) and its ordered children. -/
inductive PlanNode where
  | node (metrics : List (String × Nat)) (children : List PlanNode)

/-- A host-side `SparkMetricNode`: an id (for the trace) and its ordered
children. `getChild(i)` is modelled as returning the `i`-th child, raising a
host-call error when the host tree has no such child. -/
inductive SparkMetricNode where
  | node (id : Nat) (children : List SparkMetricNode)

def SparkMetricNode.nid : SparkMetricNode → Nat
  | .node i _ => i

def SparkMetricNode.childList : SparkMetricNode → List SparkMetricNode
  | .node _ cs => cs

def PlanNode.metricList : PlanNode → List (String × Nat)
  | .node ms _ => ms

def PlanNode.childList : PlanNode → List PlanNode
  | .node _ cs => cs

/-- The closed allow-list `REPORTED_METRICS`. -/
def REPORTED_METRICS : List String :=
  ["input_rows", "input_batches", "output_rows", "output_batches",
   "elapsed_compute", "join_time"]

/-- Rust `usize as i64` (64-bit): two's-complement reinterpretation of the
unsigned value. -/
def usize_as_i64 (v : Nat) : Int :=
  if v % 2 ^ 64 < 2 ^ 63 then ((v % 2 ^ 64 : Nat) : Int)
  else ((v % 2 ^ 64 : Nat) : Int) - 2 ^ 64

/-- `update_metrics`: for each `(name, value)` pair in order, if `name` is
contained in `REPORTED_METRICS`, build the JVM string and call
`add(name, value)` on the metric node; otherwise do nothing. -/
def update_metrics (nodeId : Nat) : List (String × Int) → List MEvent
  | [] => []
  | (n, v) :: rest =>
      (if REPORTED_METRICS.contains n then [MEvent.add nodeId n v] else [])
        ++ update_metrics nodeId rest

/-- Host behaviour of `SparkMetricNode.getChild(i)`: the `i`-th host child,
or a host-call error when the host tree is shallower than the native tree. -/
def sparkGetChild (h : SparkMetricNode) (i : Nat) :
    Except String SparkMetricNode :=
  match h.childList.get? i with
  | some c => .ok c
  | none => .error "getChild: no such child"

/-- The metric snapshot taken by `update_spark_metric_node`:
`metrics().iter().map(|m| (m.name(), m.as_usize() as i64))`. -/
def metricSnapshot (p : PlanNode) : List (String × Int) :=
  p.metricList.map fun nv => (nv.1, usize_as_i64 nv.2)

mutual

/-- `update_spark_metric_node`: push the current node's (filtered) snapshot
onto the host node, then for each child position `i` in order obtain the
host child via `getChild(i)` and recurse; any host failure aborts the walk. -/
def update_spark_metric_node (h : SparkMetricNode) :
    PlanNode → Except String (List MEvent)
  | .node ms cs =>
      match updateChildren h 0 cs with
      | .ok childEvs =>
          .ok (update_metrics h.nid (ms.map fun nv => (nv.1, usize_as_i64 nv.2))
                ++ childEvs)
      | .error e => .error e

/-- The `for (i, child_plan) in children.iter().enumerate()` loop of
`update_spark_metric_node`, starting at position `i`. -/
def updateChildren (h : SparkMetricNode) (i : Nat) :
    List PlanNode → Except String (List MEvent)
  | [] => .ok []
  | c :: rest =>
      match sparkGetChild h i with
      | .error e => .error e
      | .ok hc =>
          match update_spark_metric_node hc c with
          | .error e => .error e
          | .ok tr =>
              match updateChildren h (i + 1) rest with
              | .error e => .error e
              | .ok tr' => .ok (MEvent.getChild h.nid i :: (tr ++ tr'))

end

mutual

/-- Shape equality between a native plan tree and a host metric tree. -/
def sameShape : PlanNode → SparkMetricNode → Bool
  | .node _ cs, .node _ hcs => sameShapeList cs hcs

def sameShapeList : List PlanNode → List SparkMetricNode → Bool
  | [], [] => true
  | c :: cs, hc :: hcs => sameShape c hc && sameShapeList cs hcs
  | _, _ => false

end

mutual

/-- Number of nodes of a native plan tree. -/
def countNodes : PlanNode → Nat
  | .node _ cs => 1 + countNodesList cs

def countNodesList : List PlanNode → Nat
  | [] => 0
  | c :: cs => countNodes c + countNodesList cs

end

mutual

/-- Modelled from the spec (§4.3 walk): at each node, push the allow-listed
metrics of the current node, then for children positions `0..n` in order
emit `getChild(i)` and recurse into the `i`-th pair of children. Used as a
refinement target for `update_spark_metric_node`. -/
def mirrorWalkSpec : SparkMetricNode → PlanNode → List MEvent
  | .node id hcs, .node ms cs =>
      update_metrics id (ms.map fun nv => (nv.1, usize_as_i64 nv.2))
        ++ mirrorWalkSpecChildren id 0 hcs cs

def mirrorWalkSpecChildren (id : Nat) (i : Nat) :
    List SparkMetricNode → List PlanNode → List MEvent
  | hc :: hcs, c :: cs =>
      MEvent.getChild id i
        :: (mirrorWalkSpec hc c ++ mirrorWalkSpecChildren id (i + 1) hcs cs)
  | _, _ => []

end

/-- Count the `getChild` events in a metric trace. -/
def countGetChild (tr : List MEvent) : Nat :=
  tr.countP fun e => match e with
    | .getChild _ _ => true
    | _ => false

-- Equality of `Except` results is decidable; used to evaluate the embedding
-- at concrete inputs.
deriving instance DecidableEq for Except

/-- Count the `openCall` events in a trace. -/
def countOpenCalls (tr : List Event) : Nat :=
  tr.countP fun e => match e with
    | .openCall _ => true
    | _ => false

/-- A well-behaved host stream over a file of `size` bytes:
`readFSDataInputStream` fills the buffer with `min bufLen (size - pos)`
bytes and returns that count (0 at end of stream). -/
def hostFile (size : Nat) : HostRead :=
  fun bufLen pos => .ok ((min bufLen (size - pos) : Nat) : Int)

/-! ## Theorems -/

/-- C1 (counterexample): `list_file "/x"` does not return a value through the
error channel; it panics (`unreachable!`), contradicting the claim that it
returns a "not implemented" error value without panicking. -/
theorem C1_list_file_panics_cex :
    (list_file "/x").1.isErr = false ∧ (list_file "/x").1.isPanic = true
      ∧ (list_file "/x").2 = [] :=
  ⟨rfl, rfl, rfl⟩

/-- C1 (amended): for every input, `list_file` and `list_dir` deterministically
panic with the `unreachable!` message and contact no host; neither returns a
"not implemented" error through the native error channel. -/
theorem C1_list_ops_panic (pfx : String) (delimiter : Option String) :
    list_file pfx = (.panicked "internal error: entered unreachable code", [])
    ∧ list_dir pfx delimiter
        = (.panicked "internal error: entered unreachable code", []) :=
  ⟨rfl, rfl⟩

/-- C2 (counterexample): when the host read call returns the negative count
`-1`, `HDFSFileReader::read` does not return an I/O error: it returns `Ok`
with the wrapped count `2^64 - 1` and advances `pos` to `2^64 - 1`. -/
theorem C2_negative_read_cex :
    hdfsFileReader_read (fun _ _ => .ok (-1)) ⟨0, 0⟩ 10
      = (.ok (⟨0, 2 ^ 64 - 1⟩, 2 ^ 64 - 1), [.readCall 0 10 0]) := by
  decide

/-- C2 (amended): if the host `readFSDataInputStream` call returns a negative
count `c` (any `jint` in `[-2^31, 0)`), the read returns `Ok` with the
two's-complement wrapped count `c + 2^64` and `pos` advances by that amount
modulo `2^64`; no I/O error is produced. -/
theorem C2_negative_read_wraps (host : HostRead) (sid pos bufLen : Nat)
    (c : Int) (hc : host bufLen pos = .ok c) (hlo : -(2 ^ 31) ≤ c)
    (hneg : c < 0) :
    hdfsFileReader_read host ⟨sid, pos⟩ bufLen
      = (.ok (⟨sid, (pos + (c + 2 ^ 64).toNat) % 2 ^ 64⟩, (c + 2 ^ 64).toNat),
         [.readCall sid bufLen pos]) := by
  simp [hdfsFileReader_read, hc, intAsUsize]
  omega

/-- C2 (witness for the amended theorem): the host count `-1` at offset 0
yields `Ok` with count `(-1) + 2^64`. -/
theorem C2_negative_read_wraps_witness :
    hdfsFileReader_read (fun _ _ => .ok (-1)) ⟨0, 0⟩ 10
      = (.ok (⟨0, (0 + ((-1 : Int) + 2 ^ 64).toNat) % 2 ^ 64⟩,
              ((-1 : Int) + 2 ^ 64).toNat),
         [.readCall 0 10 0]) :=
  C2_negative_read_wraps (fun _ _ => .ok (-1)) 0 0 10 (-1) rfl (by decide)
    (by decide)

/-- C3 (counterexample): a metric counter with value `2^63 > i64::MAX` is
pushed to the host as the wrapped negative value `-(2^63)`, not as
`i64::MAX = 2^63 - 1`. -/
theorem C3_metric_saturation_cex :
    update_spark_metric_node (.node 0 []) (.node [("output_rows", 2 ^ 63)] [])
      = .ok [.add 0 "output_rows" (-(2 ^ 63))]
    ∧ ((-(2 ^ 63) : Int) = 2 ^ 63 - 1) = False := by
  exact ⟨by decide, by simp only [eq_iff_iff, iff_false]; decide⟩

/-- C3 (amended): a metric counter value `v` with `i64::MAX < v < 2^64` is
pushed as the raw two's-complement cast `v - 2^64`, which is negative. -/
theorem C3_metric_cast_wraps (v : Nat) (id : Nat) (hlt : v < 2 ^ 64)
    (hge : 2 ^ 63 ≤ v) :
    update_spark_metric_node (.node id []) (.node [("output_rows", v)] [])
      = .ok [.add id "output_rows" ((v : Int) - 2 ^ 64)]
    ∧ ((v : Int) - 2 ^ 64) < 0 := by
  have hmod : v % 2 ^ 64 = v := Nat.mod_eq_of_lt hlt
  have hcast : usize_as_i64 v = (v : Int) - 2 ^ 64 := by
    unfold usize_as_i64
    rw [hmod, if_neg (by omega)]
  refine ⟨?_, ?_⟩
  · have hmem : "output_rows" ∈ REPORTED_METRICS := by decide
    simp [update_spark_metric_node, updateChildren, update_metrics,
      SparkMetricNode.nid, hcast, hmem]
  · have h1 : (v : Int) < 2 ^ 64 := by exact_mod_cast hlt
    omega

/-- C3 (witness for the amended theorem): at `v = 2^63` the pushed value is
`2^63 - 2^64`. -/
theorem C3_metric_cast_wraps_witness :
    update_spark_metric_node (.node 4 []) (.node [("output_rows", 2 ^ 63)] [])
      = .ok [.add 4 "output_rows" (((2 ^ 63 : Nat) : Int) - 2 ^ 64)]
    ∧ (((2 ^ 63 : Nat) : Int) - 2 ^ 64) < 0 :=
  C3_metric_cast_wraps (2 ^ 63) 4 (by decide) (by decide)

/-- C5: `update_metrics` issues exactly one `add(name, value)` call per
snapshot entry whose name is in `REPORTED_METRICS` (in snapshot order, on
the given node) and no call for any other entry: the emitted trace is
exactly the allow-list filter of the snapshot, mapped to `add` events. -/
theorem C5_update_metrics_allowlist (nodeId : Nat) (s : List (String × Int)) :
    update_metrics nodeId s
      = ((s.filter fun p => REPORTED_METRICS.contains p.1).map
          fun p => MEvent.add nodeId p.1 p.2)
    ∧ (update_metrics nodeId s).length
      = (s.filter fun p => REPORTED_METRICS.contains p.1).length := by
  have h : update_metrics nodeId s
      = ((s.filter fun p => REPORTED_METRICS.contains p.1).map
          fun p => MEvent.add nodeId p.1 p.2) := by
    induction s with
    | nil => rfl
    | cons a rest ih =>
        obtain ⟨n, v⟩ := a
        by_cases hn : n ∈ REPORTED_METRICS <;>
          simp [update_metrics, hn, List.filter_cons, ih]
  exact ⟨h, by simp [h]⟩

/-- C9: `length()` always returns exactly the descriptor's recorded `size`
and performs no host call. -/
theorem C9_length_no_host_call (r : HDFSObjectReader) :
    hdfsObjectReader_length r = (r.file.size, []) := rfl

/-- C10: `sync_chunk_reader(start, _)` (and `sync_reader()`, which is
`sync_chunk_reader 0 0`) always returns `Ok` with no host call, yielding a
buffered reader over a fresh `HDFSFileReader` that shares the object
reader's one stream wrapper; the single host `open` happens eagerly inside
`file_reader`, whose trace holds exactly one `openCall`. -/
theorem C10_sync_readers_share_stream :
    (∀ (r : HDFSObjectReader) (start length : Nat),
        sync_chunk_reader r start length
          = (.ok { inner := { streamId := r.streamId, pos := start },
                   bpos := 0, bcap := 0 }, []))
    ∧ (∀ r : HDFSObjectReader, sync_reader r = sync_chunk_reader r 0 0)
    ∧ (∀ (host : HostFS) (file : SizedFile) (sid : Nat),
        host.openStream file.path = .ok sid →
          file_reader host file
            = (.ok { file := file, streamId := sid },
               [.getHDFSFileSystem, .newString file.path, .newHadoopPath,
                .openCall file.path, .newGlobalRef])
          ∧ countOpenCalls (file_reader host file).2 = 1) := by
  refine ⟨fun r start length => rfl, fun r => rfl,
    fun host file sid hopen => ?_⟩
  have hfr : file_reader host file
      = (.ok { file := file, streamId := sid },
         [.getHDFSFileSystem, .newString file.path, .newHadoopPath,
          .openCall file.path, .newGlobalRef]) := by
    simp [file_reader, get_hdfs_input_stream, hopen]
  exact ⟨hfr, by rw [hfr]; rfl⟩

/-- C10 (witness): concrete open with stream id 5 and a derived reader at
offset 3. -/
theorem C10_sync_readers_share_stream_witness :
    sync_chunk_reader ⟨⟨"/a/b", 1024⟩, 5⟩ 3 7
        = (.ok { inner := { streamId := 5, pos := 3 }, bpos := 0, bcap := 0 },
           [])
    ∧ file_reader ⟨fun _ => .ok 5⟩ ⟨"/a/b", 1024⟩
        = (.ok ⟨⟨"/a/b", 1024⟩, 5⟩,
           [.getHDFSFileSystem, .newString "/a/b", .newHadoopPath,
            .openCall "/a/b", .newGlobalRef]) :=
  ⟨C10_sync_readers_share_stream.1 ⟨⟨"/a/b", 1024⟩, 5⟩ 3 7,
   (C10_sync_readers_share_stream.2.2 ⟨fun _ => .ok 5⟩ ⟨"/a/b", 1024⟩ 5
      rfl).1⟩

/-- Every `HDFSFileReader::read` issues exactly the one host read call, at the
reader's current position, whether or not the host raises. -/
theorem hdfsFileReader_read_trace (host : HostRead) (r : HDFSFileReader)
    (bufLen : Nat) :
    (hdfsFileReader_read host r bufLen).2 = [.readCall r.streamId bufLen r.pos]
    := by
  unfold hdfsFileReader_read
  cases host bufLen r.pos <;> rfl

/-- C4 (counterexample): with `file = (path="/a/b", size=1024)` and the reader
returned by `sync_chunk_reader 0 _`, two 512-byte caller reads produce ONE
host `readFSDataInputStream` call, whose buffer is the internal 8192-byte
`BufReader` buffer at position 0 — not two calls with the caller's own
512-byte buffer at positions 0 and 512. -/
theorem C4_two_reads_one_host_call_cex :
    sync_chunk_reader ⟨⟨"/a/b", 1024⟩, 7⟩ 0 0
      = (.ok { inner := { streamId := 7, pos := 0 }, bpos := 0, bcap := 0 },
         [])
    ∧ bufReadSeq (hostFile 1024)
        { inner := { streamId := 7, pos := 0 }, bpos := 0, bcap := 0 }
        [512, 512]
      = (.ok ({ inner := { streamId := 7, pos := 1024 }, bpos := 1024,
                bcap := 1024 }, [512, 512]),
         [.readCall 7 8192 0])
    ∧ [Event.readCall 7 8192 0].length ≠ 2 :=
  ⟨rfl, by decide, by decide⟩

/-- C4 (amended): each caller `read(buf)` on the reader returned by
`sync_chunk_reader` issues at most one host `readFSDataInputStream` call;
when one is issued, its position is the inner reader's current cursor and
its buffer is the caller's own `buf` only in the bypass case (internal
buffer empty and `buf.len() ≥ 8192`), otherwise the internal 8192-byte
buffer. -/
theorem C4_buffered_read_shape (host : HostRead) (s : BufReaderState)
    (bufLen : Nat) :
    (bufReader_read host s bufLen).2 = []
    ∨ (bufReader_read host s bufLen).2
        = [Event.readCall s.inner.streamId
            (if s.bpos = s.bcap ∧ bufCapacity ≤ bufLen then bufLen
             else bufCapacity)
            s.inner.pos] := by
  unfold bufReader_read
  by_cases h1 : s.bpos = s.bcap ∧ bufCapacity ≤ bufLen
  · right
    rw [if_pos h1, if_pos h1]
    rcases hread : hdfsFileReader_read host s.inner bufLen with ⟨res, tr⟩
    have htr := hdfsFileReader_read_trace host s.inner bufLen
    rw [hread] at htr
    subst htr
    cases res with
    | ok v => obtain ⟨inner', n⟩ := v; rfl
    | error e => rfl
  · rw [if_neg h1, if_neg h1]
    by_cases h2 : s.bcap ≤ s.bpos
    · right
      rw [if_pos h2]
      rcases hread : hdfsFileReader_read host s.inner bufCapacity
        with ⟨res, tr⟩
      have htr := hdfsFileReader_read_trace host s.inner bufCapacity
      rw [hread] at htr
      subst htr
      cases res with
      | ok v => obtain ⟨inner', n⟩ := v; rfl
      | error e => rfl
    · left
      rw [if_neg h2]

theorem countCloseCalls_append (a b : List Event) :
    countCloseCalls (a ++ b) = countCloseCalls a + countCloseCalls b :=
  List.countP_append _ _ _

theorem countCloseCalls_bufReader_read (host : HostRead) (s : BufReaderState)
    (bufLen : Nat) :
    countCloseCalls (bufReader_read host s bufLen).2 = 0 := by
  unfold bufReader_read
  by_cases h1 : s.bpos = s.bcap ∧ bufCapacity ≤ bufLen
  · rw [if_pos h1]
    rcases hread : hdfsFileReader_read host s.inner bufLen with ⟨res, tr⟩
    have htr := hdfsFileReader_read_trace host s.inner bufLen
    rw [hread] at htr
    subst htr
    cases res with
    | ok v => obtain ⟨inner', n⟩ := v; rfl
    | error e => rfl
  · rw [if_neg h1]
    by_cases h2 : s.bcap ≤ s.bpos
    · rw [if_pos h2]
      rcases hread : hdfsFileReader_read host s.inner bufCapacity
        with ⟨res, tr⟩
      have htr := hdfsFileReader_read_trace host s.inner bufCapacity
      rw [hread] at htr
      subst htr
      cases res with
      | ok v => obtain ⟨inner', n⟩ := v; rfl
      | error e => rfl
    · rw [if_neg h2]
      rfl

theorem countCloseCalls_bufReadSeq (host : HostRead) (s : BufReaderState)
    (bs : List Nat) :
    countCloseCalls (bufReadSeq host s bs).2 = 0 := by
  induction bs generalizing s with
  | nil => rfl
  | cons b rest ih =>
      rcases hr : bufReader_read host s b with ⟨res, tr⟩
      have htr := countCloseCalls_bufReader_read host s b
      rw [hr] at htr
      cases res with
      | ok sn =>
          obtain ⟨s', n⟩ := sn
          rcases hrest : bufReadSeq host s' rest with ⟨res2, tr2⟩
          have h2 := ih s'
          rw [hrest] at h2
          cases res2 <;>
            simp [bufReadSeq, hr, hrest, countCloseCalls_append, htr, h2]
      | error e => simp [bufReadSeq, hr, htr]

theorem countCloseCalls_sessions (host : HostRead) (sid : Nat)
    (sessions : List (Nat × List Nat)) :
    countCloseCalls ((sessions.map (readerSessionTrace host sid)).flatten)
      = 0 := by
  induction sessions with
  | nil => rfl
  | cons a rest ih =>
      have ha : countCloseCalls (readerSessionTrace host sid a) = 0 :=
        countCloseCalls_bufReadSeq host _ a.2
      rw [List.map_cons, List.flatten_cons, countCloseCalls_append, ha, ih]

theorem countCloseCalls_file_reader (hostFS : HostFS) (file : SizedFile) :
    countCloseCalls (file_reader hostFS file).2 = 0 := by
  unfold file_reader get_hdfs_input_stream
  cases hostFS.openStream file.path <;> rfl

/-- C7: the stream wrapper's destructor issues exactly one `close()` host
call and returns normally for every host outcome of the close (the failure
is swallowed); consequently a full lifetime — open via `file_reader`, any
number of derived readers with any read sequences (successful or failing),
then destruction — contains exactly one `closeCall`. -/
theorem C7_close_exactly_once (hostFS : HostFS) (hostRead : HostRead)
    (closeResult : Except String Unit) (file : SizedFile)
    (sessions : List (Nat × List Nat)) (streamId : Nat) :
    fsInputStreamWrapper_drop closeResult streamId
        = ((), [.closeCall streamId])
    ∧ ((file_reader hostFS file).1.isOk = true →
        countCloseCalls
          (openReadCloseTrace hostFS hostRead closeResult file sessions)
          = 1) := by
  refine ⟨rfl, fun hok => ?_⟩
  rcases hfr : file_reader hostFS file with ⟨res, evs⟩
  rw [hfr] at hok
  cases res with
  | error e => simp [Except.isOk, Except.toBool] at hok
  | ok r =>
      have hevs : countCloseCalls evs = 0 := by
        have h0 := countCloseCalls_file_reader hostFS file
        rw [hfr] at h0
        exact h0
      unfold openReadCloseTrace
      simp only [hfr]
      rw [countCloseCalls_append, countCloseCalls_append, hevs,
        countCloseCalls_sessions hostRead r.streamId sessions]
      rfl

/-- C7 (witness): a concrete lifetime — open succeeds with stream id 5, one
derived reader performs two reads, the host close fails — contains exactly
one `closeCall`. -/
theorem C7_close_exactly_once_witness :
    countCloseCalls
      (openReadCloseTrace ⟨fun _ => .ok 5⟩ (hostFile 100)
        (.error "close failed") ⟨"/a/b", 100⟩ [(0, [4096, 4096])]) = 1 :=
  (C7_close_exactly_once ⟨fun _ => .ok 5⟩ (hostFile 100)
    (.error "close failed") ⟨"/a/b", 100⟩ [(0, [4096, 4096])] 5).2 (by decide)

/-- C8: for a `HDFSFileReader` opened at offset `start` (as built by
`get_reader`/`sync_chunk_reader`), after any sequence of successful reads
returning the counts `ns`, the cursor satisfies `pos = start + ns.sum`
(given in-range `jint` host counts and no `u64` overflow of the sum); in
particular a read returning 0 contributes 0, leaving `pos` unchanged. -/
theorem C8_pos_tracks_returned (host : HostRead) (sid start : Nat)
    (bufLens : List Nat) (r' : HDFSFileReader) (ns : List Nat)
    (tr : List Event)
    (hnn : ∀ b p c, host b p = .ok c → 0 ≤ c ∧ c < 2 ^ 31)
    (hrun : hdfsReadSeq host ⟨sid, start⟩ bufLens = (.ok (r', ns), tr))
    (hof : start + ns.sum < 2 ^ 64) :
    r'.streamId = sid ∧ r'.pos = start + ns.sum := by
  induction bufLens generalizing start ns tr with
  | nil =>
      simp only [hdfsReadSeq, Prod.mk.injEq, Except.ok.injEq] at hrun
      obtain ⟨⟨hr, hn⟩, _⟩ := hrun
      subst hr
      subst hn
      simp
  | cons b bs ih =>
      cases hcall : host b start with
      | error e =>
          rw [hdfsReadSeq] at hrun
          unfold hdfsFileReader_read at hrun
          simp only [hcall] at hrun
          simp at hrun
      | ok c =>
          obtain ⟨hc0, hc31⟩ := hnn b start c hcall
          have hread : hdfsFileReader_read host ⟨sid, start⟩ b
              = (.ok (⟨sid, (start + c.toNat) % 2 ^ 64⟩, c.toNat),
                 [.readCall sid b start]) := by
            unfold hdfsFileReader_read
            simp only [hcall]
            simp [intAsUsize]
            omega
          rw [hdfsReadSeq] at hrun
          simp only [hread] at hrun
          rcases hrest : hdfsReadSeq host ⟨sid, (start + c.toNat) % 2 ^ 64⟩ bs
            with ⟨res2, tr2⟩
          rw [hrest] at hrun
          cases res2 with
          | error e => simp at hrun
          | ok rns =>
              obtain ⟨r2, ns2⟩ := rns
              simp only [Prod.mk.injEq, Except.ok.injEq] at hrun
              obtain ⟨⟨hr2, hns⟩, _⟩ := hrun
              subst hr2
              subst hns
              have hsum : start + (c.toNat :: ns2).sum < 2 ^ 64 := hof
              have hlt : start + c.toNat < 2 ^ 64 := by
                simp only [List.sum_cons] at hsum
                omega
              have hmod : (start + c.toNat) % 2 ^ 64 = start + c.toNat :=
                Nat.mod_eq_of_lt hlt
              rw [hmod] at hrest
              have hih := ih (start + c.toNat) ns2 tr2 hrest
                (by simp only [List.sum_cons] at hsum; omega)
              obtain ⟨hs, hp⟩ := hih
              refine ⟨hs, ?_⟩
              simp only [List.sum_cons]
              omega

/-- C8 (witness): spec scenario 2 — file of size 100, two 4096-byte reads;
the host returns 100 then 0, and the cursor ends at `0 + (100 + 0) = 100`,
the second (EOF) read leaving it unchanged. -/
theorem C8_pos_tracks_returned_witness :
    (hdfsReadSeq (hostFile 100) ⟨0, 0⟩ [4096, 4096]).1
        = .ok (⟨0, 100⟩, [100, 0])
    ∧ (⟨0, 100⟩ : HDFSFileReader).streamId = 0
    ∧ (⟨0, 100⟩ : HDFSFileReader).pos = 0 + ([100, 0] : List Nat).sum := by
  have h := C8_pos_tracks_returned (hostFile 100) 0 0 [4096, 4096] ⟨0, 100⟩
    [100, 0] [.readCall 0 4096 0, .readCall 0 4096 100]
    (by
      intro b p c hc
      simp only [hostFile, Except.ok.injEq] at hc
      omega)
    (by decide) (by decide)
  exact ⟨by decide, h.1, h.2⟩

theorem get?_eq_of_drop {α : Type} :
    ∀ (l : List α) (i : Nat) (a : α) (rest : List α),
      l.drop i = a :: rest → l.get? i = some a
  | [], i, a, rest, h => by simp at h
  | x :: xs, 0, a, rest, h => by
      simp only [List.drop_zero] at h
      rw [h]
      rfl
  | x :: xs, i + 1, a, rest, h => by
      simp only [List.drop_succ_cons] at h
      simpa using get?_eq_of_drop xs i a rest h

theorem drop_eq_of_drop {α : Type} (l : List α) (i : Nat) (a : α)
    (rest : List α) (h : l.drop i = a :: rest) : l.drop (i + 1) = rest := by
  have h2 : l.drop (i + 1) = (l.drop i).drop 1 := (List.drop_drop 1 i l).symm
  rw [h2, h]
  rfl

theorem countGetChild_append (a b : List MEvent) :
    countGetChild (a ++ b) = countGetChild a + countGetChild b :=
  List.countP_append _ _ _

theorem countGetChild_update_metrics (id : Nat) (s : List (String × Int)) :
    countGetChild (update_metrics id s) = 0 := by
  induction s with
  | nil => rfl
  | cons a rest ih =>
      obtain ⟨n, v⟩ := a
      by_cases hn : n ∈ REPORTED_METRICS <;>
        simp [update_metrics, hn, countGetChild, List.countP_cons,
          List.countP_append, ih] <;>
      simpa [countGetChild] using ih

/-- Induction over the nested plan-tree type: to prove `P` everywhere it
suffices to prove it at each node given it for all children. -/
theorem PlanNode.inductionOn {P : PlanNode → Prop}
    (ind : ∀ ms cs, (∀ c ∈ cs, P c) → P (.node ms cs)) :
    ∀ p : PlanNode, P p
  | .node ms cs => ind ms cs fun c hc =>
      have : sizeOf c < sizeOf (PlanNode.node ms cs) := by
        have h := List.sizeOf_lt_of_mem hc
        simp only [PlanNode.node.sizeOf_spec]
        omega
      PlanNode.inductionOn ind c
termination_by p => sizeOf p

theorem updateChildren_mirror (cs : List PlanNode)
    (hind : ∀ c ∈ cs, ∀ hc : SparkMetricNode, sameShape c hc = true →
      update_spark_metric_node hc c = .ok (mirrorWalkSpec hc c)
      ∧ countGetChild (mirrorWalkSpec hc c) + 1 = countNodes c) :
    ∀ (i : Nat) (h : SparkMetricNode) (hcs : List SparkMetricNode),
      h.childList.drop i = hcs → sameShapeList cs hcs = true →
      updateChildren h i cs = .ok (mirrorWalkSpecChildren h.nid i hcs cs)
      ∧ countGetChild (mirrorWalkSpecChildren h.nid i hcs cs)
          = countNodesList cs := by
  induction cs with
  | nil =>
      intro i h hcs hdrop hshape
      cases hcs with
      | nil => exact ⟨rfl, rfl⟩
      | cons hc hcs' => simp [sameShapeList] at hshape
  | cons c cs' ih =>
      intro i h hcs hdrop hshape
      cases hcs with
      | nil => simp [sameShapeList] at hshape
      | cons hc hcs' =>
          rw [sameShapeList, Bool.and_eq_true] at hshape
          obtain ⟨hs1, hs2⟩ := hshape
          have hget : sparkGetChild h i = .ok hc := by
            unfold sparkGetChild
            rw [get?_eq_of_drop _ _ _ _ hdrop]
          have hchild := hind c (by simp) hc hs1
          have hdrop' : h.childList.drop (i + 1) = hcs' :=
            drop_eq_of_drop _ _ _ _ hdrop
          have hrest := ih (fun c2 hc2 => hind c2 (by simp [hc2])) (i + 1) h
            hcs' hdrop' hs2
          constructor
          · rw [updateChildren]
            simp only [hget, hchild.1, hrest.1]
            rw [mirrorWalkSpecChildren]
          · rw [mirrorWalkSpecChildren, countNodesList]
            have hc1 := hchild.2
            have hr1 := hrest.2
            simp [countGetChild, List.countP_cons, List.countP_append]
              at hc1 hr1 ⊢
            omega

/-- C6: for every native plan tree and shape-matching host metric tree, the
walk succeeds and its host-call trace is exactly the spec's top-down mirror
walk — at each node the (filtered) metric `add`s are pushed first, then for
child positions `0..c-1` in order a `getChild(i)` call followed by the
child's own walk; the number of `getChild` calls is the native node count
minus one, i.e. exactly one host-side node is visited per native node. -/
theorem C6_walk_mirrors_tree (p : PlanNode) : ∀ h : SparkMetricNode,
    sameShape p h = true →
    update_spark_metric_node h p = .ok (mirrorWalkSpec h p)
    ∧ countGetChild (mirrorWalkSpec h p) + 1 = countNodes p := by
  induction p using PlanNode.inductionOn with
  | ind ms cs ihc =>
      intro h hshape
      cases h with
      | node id hcs =>
          rw [sameShape] at hshape
          have hchildren := updateChildren_mirror cs ihc 0 (.node id hcs) hcs
            rfl hshape
          simp only [SparkMetricNode.nid, SparkMetricNode.childList]
            at hchildren
          constructor
          · rw [update_spark_metric_node]
            simp only [hchildren.1]
            rw [mirrorWalkSpec]
            rfl
          · rw [mirrorWalkSpec, countNodes]
            rw [countGetChild_append, countGetChild_update_metrics]
            have h2 := hchildren.2
            omega

/-- C6 (witness): spec scenario 4 — a root with two children; the walk
pushes the root's allow-listed metric, then `getChild(0)` and the first
child's metric, then `getChild(1)` and the second child's allow-listed
metric, dropping `ignore_me`. -/
theorem C6_walk_mirrors_tree_witness :
    update_spark_metric_node (.node 0 [.node 1 [], .node 2 []])
        (.node [("output_rows", 3)]
          [.node [("join_time", 10)] [],
           .node [("output_batches", 2), ("ignore_me", 5)] []])
      = .ok (mirrorWalkSpec (.node 0 [.node 1 [], .node 2 []])
          (.node [("output_rows", 3)]
            [.node [("join_time", 10)] [],
             .node [("output_batches", 2), ("ignore_me", 5)] []]))
    ∧ mirrorWalkSpec (.node 0 [.node 1 [], .node 2 []])
          (.node [("output_rows", 3)]
            [.node [("join_time", 10)] [],
             .node [("output_batches", 2), ("ignore_me", 5)] []])
        = [.add 0 "output_rows" 3, .getChild 0 0, .add 1 "join_time" 10,
           .getChild 0 1, .add 2 "output_batches" 2]
    ∧ countGetChild (mirrorWalkSpec (.node 0 [.node 1 [], .node 2 []])
          (.node [("output_rows", 3)]
            [.node [("join_time", 10)] [],
             .node [("output_batches", 2), ("ignore_me", 5)] []])) + 1
        = countNodes (.node [("output_rows", 3)]
            [.node [("join_time", 10)] [],
             .node [("output_batches", 2), ("ignore_me", 5)] []]) :=
  ⟨(C6_walk_mirrors_tree _ _ (by decide)).1, by decide,
   (C6_walk_mirrors_tree _ _ (by decide)).2⟩
